import Mathlib

/-!
# A verification development for GeneScoop

`GeneScoop.py` scans GenBank files, classifies CDS features against fixed
gene-name tokens and keyword phrases, deduplicates by coordinate pair,
labels the extracted sequences and writes them to a single FASTA file.

This file gives a shallow embedding of that script and proves properties
of it.  External collaborators (the GenBank parser `SeqIO.read`, the
coordinate mapper `feature.extract` and the FASTA serializer
`SeqIO.write`) are represented by explicit parameters or, where noted,
modelled from their specified behaviour.
-/

namespace GeneScoop

/-- Boolean test that one character list starts with another
(the primitive underlying Python substring search). -/
def prefixB : List Char → List Char → Bool
  | [], _ => true
  | _ :: _, [] => false
  | a :: xs, b :: ys => a == b && prefixB xs ys

/-- Boolean substring containment on character lists: `subIn n h` holds
when `n` occurs contiguously inside `h` (semantics of Python `n in h`). -/
def subIn (needle : List Char) : List Char → Bool
  | [] => prefixB needle []
  | b :: rest => prefixB needle (b :: rest) || subIn needle rest

/-- Python string containment `needle in hay`. -/
def strIn (needle hay : String) : Bool := subIn needle.data hay.data

/-- Python `str.lower()`: lowercase every character (translated as a map
over the character list; agrees with ASCII lowering, which is all the
configured criteria use). -/
def strLower (s : String) : String := ⟨s.data.map Char.toLower⟩

/-- The two match categories a hit can be recorded under
(the strings `'gene'` and `'product_or_note'` in the script). -/
inductive MatchType where
  | gene
  | product_or_note
deriving DecidableEq, Repr

/-- The identifier token the script uses for each match category. -/
def matchTypeStr : MatchType → String
  | .gene => "gene"
  | .product_or_note => "product_or_note"

/-- One annotated feature of a GenBank record: its type tag
(`feature.type`), its coordinate range (`feature.location.start`,
`feature.location.end`, the field `stop` standing for the reserved word)
and its qualifier mapping from key to value list. -/
structure Feature where
  type : String
  start : Nat
  stop : Nat
  qualifiers : List (String × List String)
deriving DecidableEq, Repr

/-- Python `qualifiers.get(key, [])`. -/
def qualGet (qs : List (String × List String)) (key : String) : List String :=
  (qs.lookup key).getD []

/-- Line 59 of the script: `' '.join(qualifiers.get('gene', [])).lower()`. -/
def geneText (f : Feature) : String :=
  strLower (String.intercalate " " (qualGet f.qualifiers "gene"))

/-- Line 60: `' '.join(qualifiers.get('product', []) + qualifiers.get('note', [])).lower()`. -/
def productNoteText (f : Feature) : String :=
  strLower (String.intercalate " " (qualGet f.qualifiers "product" ++ qualGet f.qualifiers "note"))

/-- The matcher, lines 62-68: gene-name tokens are searched in the joined
`gene` qualifier text first; keyword phrases in the joined
`product`+`note` text only when no gene-name token matched. -/
def classify (gene_names keyword_list : List String) (f : Feature) : Option MatchType :=
  if gene_names.any (fun g => strIn g (geneText f)) then some .gene
  else if keyword_list.any (fun k => strIn k (productNoteText f)) then some .product_or_note
  else none

/-- Line 54: `coords = (feature.location.start, feature.location.end)`. -/
def coordsOf (f : Feature) : Nat × Nat := (f.start, f.stop)

/-- The hit-collection loop, lines 53-69: walk the CDS features in order,
skip a feature whose coordinate pair was already recorded, classify the
rest, and record coordinate pairs of matches only. -/
def geneHits (gene_names keyword_list : List String) :
    List Feature → List (Nat × Nat) → List (Feature × MatchType)
  | [], _ => []
  | f :: rest, processed_coords =>
    if coordsOf f ∈ processed_coords then
      geneHits gene_names keyword_list rest processed_coords
    else
      match classify gene_names keyword_list f with
      | some t => (f, t) :: geneHits gene_names keyword_list rest (coordsOf f :: processed_coords)
      | none => geneHits gene_names keyword_list rest processed_coords

/-- One parsed GenBank file as the script reads it: `gb_obj.id`,
`gb_obj.description`, `gb_obj.annotations.get('taxonomy', [])` and
`gb_obj.features`. -/
structure GbRecord where
  id : String
  description : String
  taxonomy : List String
  features : List Feature
deriving DecidableEq, Repr

/-- One output record as handed to the FASTA writer. -/
structure SeqRecord where
  id : String
  description : String
  seq : List Char
deriving DecidableEq, Repr

/-- Line 77: `'; '.join(gb_obj.annotations.get('taxonomy', [])) or 'unknown taxonomy'`.
Python `or` yields the fallback exactly when the joined string is empty. -/
def taxonomyStr (r : GbRecord) : String :=
  let joined := String.intercalate "; " r.taxonomy
  if joined = "" then "unknown taxonomy" else joined

/-- Line 82: the f-string id, with the 1-based index rendered in decimal. -/
def mkId (rid : String) (t : MatchType) (idx1 : Nat) : String :=
  rid ++ "_" ++ matchTypeStr t ++ "_" ++ Nat.repr idx1

/-- Lines 76-84: the `SeqRecord` built for the hit at 0-based position `idx`. -/
def mkRecord (r : GbRecord) (t : MatchType) (idx : Nat) (s : List Char) : SeqRecord :=
  { id := mkId r.id t (idx + 1)
    description := matchTypeStr t ++ " " ++ r.description ++ ", " ++ taxonomyStr r
    seq := s }

/-- Lines 73-87: the `enumerate(gene_hits)` loop.  `ext` is the external
coordinate mapper `hit.extract(gb_obj)`; a `none` result stands for the
exception caught at line 86, which skips just that hit. -/
def buildRecordsFrom (ext : Feature → Option (List Char)) (r : GbRecord) :
    Nat → List (Feature × MatchType) → List SeqRecord
  | _, [] => []
  | idx, (hit, t) :: rest =>
    match ext hit with
    | some s => mkRecord r t idx s :: buildRecordsFrom ext r (idx + 1) rest
    | none => buildRecordsFrom ext r (idx + 1) rest

/-- Line 48: `[f for f in gb_obj.features if f.type == 'CDS']`. -/
def cdsFeatures (r : GbRecord) : List Feature :=
  r.features.filter (fun f => f.type == "CDS")

/-- `extract_sequences`, lines 37-89.  `parsed` is the outcome of the
`SeqIO.read` call (an `Except.error` stands for the exception caught at
line 44, which returns `[]`). -/
def extract_sequences (ext : GbRecord → Feature → Option (List Char))
    (gene_names keyword_list : List String)
    (parsed : Except String GbRecord) : List SeqRecord :=
  match parsed with
  | .error _ => []
  | .ok gb =>
    buildRecordsFrom (ext gb) gb 0 (geneHits gene_names keyword_list (cdsFeatures gb) [])

/-- Lines 118-122: the ID/description validation loop over the aggregate. -/
def normalizeRecord (s : SeqRecord) : SeqRecord :=
  { s with
    id := if s.id = "" ∨ s.id = "<unknown id>" then "unknown_id" else s.id
    description :=
      if s.description = "" ∨ s.description = "<unknown description>" then
        "unknown description"
      else s.description }

/-- Modelled from the spec: the external serializer `SeqIO.write` renders
each entry as a header line from identifier and description followed by
the residues; an empty record list yields an empty file. -/
def fastaEntry (s : SeqRecord) : String :=
  ">" ++ s.id ++ " " ++ s.description ++ "\n" ++ String.mk s.seq ++ "\n"

/-- Modelled from the spec: content of the output file for a record list. -/
def fastaText (l : List SeqRecord) : String :=
  String.join (l.map fastaEntry)

/-- Observable outcome of one whole run of the script: the normalized
aggregate, the written file content (`none` when the write failed), the
final console line of the write step, and the process exit status. -/
structure MainResult where
  records : List SeqRecord
  output : Option String
  writeMessage : String
  exitCode : Nat
deriving DecidableEq, Repr

/-- Lines 96-129: aggregate per-file results, normalize, then write.
`files` carries each discovered file's parse outcome; `writeError` is the
outcome of the external `SeqIO.write` call (`some e` stands for the
exception caught at line 128).  The script lowercases the configured
criteria once (lines 33-34) and passes the lowered lists to every worker.
Both branches of the final `try`/`except` fall off the end of the script,
so the process exit status is `0` in both. -/
def mainRun (ext : GbRecord → Feature → Option (List Char))
    (genes_of_interest product_and_note_keywords : List String)
    (output_file : String) (files : List (Except String GbRecord))
    (writeError : Option String) : MainResult :=
  let gene_names := genes_of_interest.map strLower
  let keyword_list := product_and_note_keywords.map strLower
  let all_sequences := (files.map (extract_sequences ext gene_names keyword_list)).flatten
  let normalized := all_sequences.map normalizeRecord
  match writeError with
  | none =>
    { records := normalized
      output := some (fastaText normalized)
      writeMessage := " Sequences saved to " ++ output_file
      exitCode := 0 }
  | some e =>
    { records := normalized
      output := none
      writeMessage := " Error writing FASTA: " ++ e
      exitCode := 0 }

/-- The configured gene-name tokens (line 14). -/
def genes_of_interest : List String := ["mcrA"]

/-- The configured keyword phrases (lines 17-25). -/
def product_and_note_keywords : List String :=
  ["coenzyme-b sulfoethylthiotransferase subunit alpha",
   "methylcoenzyme M reductase subunit A", "methyl coenzyme M reductase subunit A",
   "methyl coenzyme M reductase subunit alpha", "methyl coenzyme M reductase alpha subunit",
   "methyl-coenzyme M reductase subunit A", "methyl-coenzyme M reductase alpha subunit",
   "methyl coenzyme M reductase, subunit A", "methyl coenzyme M reductase, subunit alpha",
   "methyl coenzyme M reductase, alpha subunit", "methyl-coenzyme M reductase, subunit A",
   "methyl-coenzyme M reductase, alpha subunit", "methyl-coenzyme M reductase, subunit alpha"]

/-- Keep, for each coordinate pair not yet seen, the first hit carrying
it; drop later hits at an already-kept pair.  Used to phrase what the
deduplication of `geneHits` amounts to. -/
def firstPerCoord : List (Feature × MatchType) → List (Nat × Nat) → List (Feature × MatchType)
  | [], _ => []
  | (f, t) :: rest, seen =>
    if coordsOf f ∈ seen then firstPerCoord rest seen
    else (f, t) :: firstPerCoord rest (coordsOf f :: seen)

/-- The description exactly as claim C6 words it: the fallback
`"unknown taxonomy"` is used when the taxonomy PATH is empty (rather
than when the JOINED taxonomy string is empty, as the code has it). -/
def claimedDescription (t : MatchType) (r : GbRecord) : String :=
  matchTypeStr t ++ " " ++ r.description ++ ", " ++
    (if r.taxonomy = [] then "unknown taxonomy" else String.intercalate "; " r.taxonomy)

/-! ## Substring search: correspondence with the mathematical statement -/

theorem prefixB_iff (n : List Char) : ∀ h : List Char, prefixB n h = true ↔ ∃ t, n ++ t = h := by
  induction n with
  | nil => intro h; simp [prefixB]
  | cons a xs ih =>
    intro h
    cases h with
    | nil => simp [prefixB]
    | cons b ys =>
      simp only [prefixB, Bool.and_eq_true, beq_iff_eq, ih ys]
      constructor
      · rintro ⟨rfl, t, rfl⟩
        exact ⟨t, rfl⟩
      · rintro ⟨t, ht⟩
        injection ht with h1 h2
        exact ⟨h1, t, h2⟩

theorem subIn_iff (n : List Char) : ∀ h : List Char, subIn n h = true ↔ ∃ s t, s ++ n ++ t = h := by
  intro h
  induction h with
  | nil =>
    cases n with
    | nil => simp [subIn, prefixB]
    | cons a xs => simp [subIn, prefixB]
  | cons b ys ih =>
    simp only [subIn, Bool.or_eq_true, prefixB_iff, ih]
    constructor
    · rintro (⟨t, ht⟩ | ⟨s, t, rfl⟩)
      · exact ⟨[], t, ht⟩
      · exact ⟨b :: s, t, rfl⟩
    · rintro ⟨s, t, ht⟩
      cases s with
      | nil => exact Or.inl ⟨t, by simpa using ht⟩
      | cons c cs =>
        injection ht with h1 h2
        exact Or.inr ⟨cs, t, h2⟩

theorem strIn_iff (needle hay : String) :
    strIn needle hay = true ↔ ∃ s t, s ++ needle.data ++ t = hay.data :=
  subIn_iff needle.data hay.data

/-! ## Injectivity of the decimal rendering used in identifiers -/

/-- Decimal digit string of a natural number, most significant digit first. -/
def digitsStr (n : Nat) : List Char :=
  if _ : n < 10 then [Nat.digitChar n]
  else digitsStr (n / 10) ++ [Nat.digitChar (n % 10)]
termination_by n
decreasing_by
  exact Nat.div_lt_self (by omega) (by omega)

theorem digitsStr_lt (n : Nat) (h : n < 10) : digitsStr n = [Nat.digitChar n] := by
  rw [digitsStr, dif_pos h]

theorem digitsStr_ge (n : Nat) (h : ¬ n < 10) :
    digitsStr n = digitsStr (n / 10) ++ [Nat.digitChar (n % 10)] := by
  rw [digitsStr, dif_neg h]

theorem digitsStr_ne_nil (n : Nat) : digitsStr n ≠ [] := by
  rw [digitsStr]
  split <;> simp

theorem toDigitsCore_eq :
    ∀ (fuel n : Nat) (acc : List Char), n < fuel →
      Nat.toDigitsCore 10 fuel n acc = digitsStr n ++ acc := by
  intro fuel
  induction fuel with
  | zero => intro n acc h; exact absurd h (Nat.not_lt_zero n)
  | succ fuel ih =>
    intro n acc h
    by_cases h0 : n / 10 = 0
    · have hn : n < 10 := by
        have := (Nat.div_eq_zero_iff (by omega)).1 h0
        omega
      rw [Nat.toDigitsCore]
      simp only [h0, if_true]
      rw [digitsStr_lt n hn, Nat.mod_eq_of_lt hn]
      rfl
    · have hpos : 0 < n := by
        by_contra hc
        have : n = 0 := by omega
        subst this
        simp at h0
      have hlt : n / 10 < fuel := by
        have h1 : n / 10 < n := Nat.div_lt_self hpos (by omega)
        omega
      have hn : ¬ n < 10 := by
        intro hc
        exact h0 (Nat.div_eq_of_lt hc)
      rw [Nat.toDigitsCore]
      simp only [h0, if_false]
      rw [ih (n / 10) (Nat.digitChar (n % 10) :: acc) hlt]
      rw [digitsStr_ge n hn]
      simp

theorem digitChar_inj_small : ∀ a ∈ List.range 10, ∀ b ∈ List.range 10,
    Nat.digitChar a = Nat.digitChar b → a = b := by decide

theorem digitsStr_inj : ∀ n m : Nat, digitsStr n = digitsStr m → n = m := by
  intro n
  induction n using Nat.strong_induction_on with
  | _ n ih =>
    intro m heq
    by_cases hn : n < 10 <;> by_cases hm : m < 10
    · rw [digitsStr_lt n hn, digitsStr_lt m hm] at heq
      injection heq with h1 _
      exact digitChar_inj_small n (List.mem_range.mpr hn) m (List.mem_range.mpr hm) h1
    · rw [digitsStr_lt n hn, digitsStr_ge m hm] at heq
      obtain ⟨c, cs, hcs⟩ := List.exists_cons_of_ne_nil (digitsStr_ne_nil (m / 10))
      rw [hcs] at heq
      simp at heq
    · rw [digitsStr_ge n hn, digitsStr_lt m hm] at heq
      obtain ⟨c, cs, hcs⟩ := List.exists_cons_of_ne_nil (digitsStr_ne_nil (n / 10))
      rw [hcs] at heq
      simp at heq
    · rw [digitsStr_ge n hn, digitsStr_ge m hm] at heq
      have hparts := List.append_inj' heq rfl
      have hdiv : n / 10 = m / 10 :=
        ih (n / 10) (Nat.div_lt_self (by omega) (by omega)) (m / 10) hparts.1
      have hlast := hparts.2
      injection hlast with hdigit _
      have hmod : n % 10 = m % 10 :=
        digitChar_inj_small (n % 10) (List.mem_range.mpr (Nat.mod_lt n (by omega)))
          (m % 10) (List.mem_range.mpr (Nat.mod_lt m (by omega))) hdigit
      omega

theorem natReprData_inj {n m : Nat} (h : (Nat.repr n).data = (Nat.repr m).data) : n = m := by
  have e : ∀ k : Nat, (Nat.repr k).data = digitsStr k := by
    intro k
    show (Nat.toDigitsCore 10 (k + 1) k []).asString.data = digitsStr k
    rw [toDigitsCore_eq (k + 1) k [] (Nat.lt_succ_self k)]
    simp [List.asString]
  rw [e n, e m] at h
  exact digitsStr_inj n m h

/-! ## Identifiers determine category and positional index -/

theorem mkId_inj {rid : String} {t1 t2 : MatchType} {i j : Nat}
    (h : mkId rid t1 i = mkId rid t2 j) : t1 = t2 ∧ i = j := by
  have hd := congrArg String.data h
  simp only [mkId, String.data_append, List.append_assoc] at hd
  have h1 := List.append_cancel_left hd
  have h2 := List.append_cancel_left h1
  cases t1 <;> cases t2 <;> simp only [matchTypeStr] at h2
  · refine ⟨rfl, ?_⟩
    have h3 := List.append_cancel_left (List.append_cancel_left h2)
    exact natReprData_inj h3
  · simp at h2
  · simp at h2
  · refine ⟨rfl, ?_⟩
    have h3 := List.append_cancel_left (List.append_cancel_left h2)
    exact natReprData_inj h3

/-! ## The hit-collection loop -/

/-- `geneHits` classifies each feature independently and keeps, per
coordinate pair, the first feature whose classification is a hit. -/
theorem geneHits_eq_firstPerCoord (gn kw : List String) (fs : List Feature) :
    ∀ seen, geneHits gn kw fs seen
      = firstPerCoord (fs.filterMap (fun f => (classify gn kw f).map (fun t => (f, t)))) seen := by
  induction fs with
  | nil => intro seen; rfl
  | cons f rest ih =>
    intro seen
    by_cases hmem : coordsOf f ∈ seen
    · cases hc : classify gn kw f with
      | none => simp [geneHits, firstPerCoord, hmem, hc, ih]
      | some t => simp [geneHits, firstPerCoord, hmem, hc, ih]
    · cases hc : classify gn kw f with
      | none => simp [geneHits, firstPerCoord, hmem, hc, ih]
      | some t => simp [geneHits, firstPerCoord, hmem, hc, ih]

/-- The hits kept by `firstPerCoord` carry pairwise distinct coordinate
pairs, none of them already seen. -/
theorem firstPerCoord_coords (l : List (Feature × MatchType)) :
    ∀ seen, ((firstPerCoord l seen).map (fun p => coordsOf p.1)).Nodup
      ∧ ∀ p ∈ firstPerCoord l seen, coordsOf p.1 ∉ seen := by
  induction l with
  | nil =>
    intro seen
    exact ⟨List.nodup_nil, by intro p hp; simp [firstPerCoord] at hp⟩
  | cons q rest ih =>
    intro seen
    obtain ⟨f, t⟩ := q
    by_cases hmem : coordsOf f ∈ seen
    · simpa [firstPerCoord, hmem] using ih seen
    · have h2 := ih (coordsOf f :: seen)
      constructor
      · simp only [firstPerCoord, hmem, if_false, List.map_cons, List.nodup_cons]
        refine ⟨?_, h2.1⟩
        intro hcontra
        obtain ⟨p, hp, hcoords⟩ := List.mem_map.1 hcontra
        exact (h2.2 p hp) (hcoords ▸ List.mem_cons_self _ _)
      · intro p hp
        simp only [firstPerCoord, hmem, if_false, List.mem_cons] at hp
        rcases hp with rfl | hp
        · exact hmem
        · exact fun hin => (h2.2 p hp) (List.mem_cons_of_mem _ hin)

/-! ## The record-building loop -/

theorem buildRecordsFrom_length (ext : Feature → Option (List Char)) (r : GbRecord) :
    ∀ (hits : List (Feature × MatchType)) (k : Nat),
      (buildRecordsFrom ext r k hits).length
        = (hits.filter (fun p => (ext p.1).isSome)).length := by
  intro hits
  induction hits with
  | nil => intro k; rfl
  | cons p rest ih =>
    intro k
    obtain ⟨hit, t⟩ := p
    cases he : ext hit with
    | some s => simp [buildRecordsFrom, he, List.filter_cons, ih]
    | none => simp [buildRecordsFrom, he, List.filter_cons, ih]

/-- A hit whose sequence derivation succeeds contributes its record,
carrying the index of its position in the hit list. -/
theorem buildRecordsFrom_mem_of_some (ext : Feature → Option (List Char)) (r : GbRecord) :
    ∀ (hits : List (Feature × MatchType)) (k i : Nat) (hlt : i < hits.length) (s : List Char),
      ext (hits.get ⟨i, hlt⟩).1 = some s →
        mkRecord r (hits.get ⟨i, hlt⟩).2 (k + i) s ∈ buildRecordsFrom ext r k hits := by
  intro hits
  induction hits with
  | nil => intro k i hlt; exact absurd hlt (by simp)
  | cons p rest ih =>
    intro k i hlt s hs
    obtain ⟨hit, t⟩ := p
    cases i with
    | zero =>
      simp only [List.get] at hs ⊢
      simp only [buildRecordsFrom, hs]
      exact List.mem_cons_self _ _
    | succ i =>
      simp only [List.get] at hs ⊢
      have hlt' : i < rest.length := by simpa using hlt
      have := ih (k + 1) i hlt' s hs
      have harith : k + 1 + i = k + (i + 1) := by omega
      rw [harith] at this
      cases he : ext hit with
      | some s0 => simp only [buildRecordsFrom, he]; exact List.mem_cons_of_mem _ this
      | none => simpa only [buildRecordsFrom, he] using this

/-- Every record produced by the loop is the record of some hit. -/
theorem buildRecordsFrom_mem_form (ext : Feature → Option (List Char)) (r : GbRecord) :
    ∀ (hits : List (Feature × MatchType)) (k : Nat) (rec : SeqRecord),
      rec ∈ buildRecordsFrom ext r k hits →
        ∃ t idx s, rec = mkRecord r t idx s := by
  intro hits
  induction hits with
  | nil => intro k rec h; simp [buildRecordsFrom] at h
  | cons p rest ih =>
    intro k rec h
    obtain ⟨hit, t⟩ := p
    cases he : ext hit with
    | some s =>
      rw [buildRecordsFrom, he] at h
      rcases List.mem_cons.1 h with rfl | h
      · exact ⟨t, k, s, rfl⟩
      · exact ih (k + 1) rec h
    | none =>
      rw [buildRecordsFrom, he] at h
      exact ih (k + 1) rec h

theorem mem_enumFrom {α : Type} :
    ∀ (l : List α) (k : Nat) (p : Nat × α), p ∈ List.enumFrom k l → k ≤ p.1 ∧ p.2 ∈ l := by
  intro l
  induction l with
  | nil => intro k p hp; simp [List.enumFrom] at hp
  | cons a rest ih =>
    intro k p hp
    rcases List.mem_cons.1 hp with rfl | hp
    · exact ⟨Nat.le_refl _, List.mem_cons_self _ _⟩
    · have := ih (k + 1) p hp
      exact ⟨by omega, List.mem_cons_of_mem _ this.2⟩

theorem enumFrom_fst_pairwise {α : Type} :
    ∀ (l : List α) (k : Nat), (List.enumFrom k l).Pairwise (fun a b => a.1 < b.1) := by
  intro l
  induction l with
  | nil => intro k; exact List.Pairwise.nil
  | cons a rest ih =>
    intro k
    refine List.Pairwise.cons ?_ (ih (k + 1))
    intro p hp
    have := (mem_enumFrom rest (k + 1) p hp).1
    simpa using by omega

/-- The identifiers produced by the loop: one per hit whose derivation
succeeds, labelled with the hit's category and 1-based position. -/
theorem buildRecordsFrom_ids (ext : Feature → Option (List Char)) (r : GbRecord) :
    ∀ (hits : List (Feature × MatchType)) (k : Nat),
      (buildRecordsFrom ext r k hits).map SeqRecord.id
        = ((List.enumFrom k hits).filter (fun p => (ext p.2.1).isSome)).map
            (fun p => mkId r.id p.2.2 (p.1 + 1)) := by
  intro hits
  induction hits with
  | nil => intro k; rfl
  | cons p rest ih =>
    intro k
    obtain ⟨hit, t⟩ := p
    cases he : ext hit with
    | some s =>
      simp only [buildRecordsFrom, he, List.enumFrom, List.filter_cons]
      simp only [he, Option.isSome_some, if_true, List.map_cons, List.mem_cons]
      exact congrArg (mkId r.id t (k + 1) :: ·) (ih (k + 1))
    | none =>
      simp only [buildRecordsFrom, he, List.enumFrom, List.filter_cons]
      simp only [he, Option.isSome_none, if_false]
      exact ih (k + 1)

/-- Identifiers built from pairwise increasing positions are pairwise
distinct, whatever categories they carry. -/
theorem mkId_map_nodup (rid : String) (l : List (Nat × Feature × MatchType))
    (hpw : l.Pairwise (fun a b => a.1 < b.1)) :
    (l.map (fun p => mkId rid p.2.2 (p.1 + 1))).Nodup := by
  refine List.Pairwise.map _ ?_ hpw
  intro a b hab heq
  have := (mkId_inj heq).2
  omega

theorem any_strIn_iff (l : List String) (text : String) :
    ((l.map strLower).any (fun g => strIn g text) = true) ↔
      ∃ g ∈ l, ∃ s t, s ++ (strLower g).data ++ t = text.data := by
  simp only [List.any_map, List.any_eq_true, Function.comp]
  constructor
  · rintro ⟨g, hg, hin⟩
    exact ⟨g, hg, (strIn_iff _ _).1 hin⟩
  · rintro ⟨g, hg, hst⟩
    exact ⟨g, hg, (strIn_iff _ _).2 hst⟩

/-! ## Concrete inputs used as witnesses and counterexamples -/

/-- A CDS feature at coordinates (0, 10) whose gene qualifier does not
match the configured criteria. -/
def exF1 : Feature := { type := "CDS", start := 0, stop := 10, qualifiers := [("gene", ["xyz"])] }

/-- A CDS feature at the same coordinates (0, 10) whose gene qualifier
matches the token `mcra`. -/
def exF2 : Feature := { type := "CDS", start := 0, stop := 10, qualifiers := [("gene", ["mcra"])] }

/-- A second matching CDS feature at fresh coordinates (30, 40). -/
def exF3 : Feature := { type := "CDS", start := 30, stop := 40, qualifiers := [("gene", ["mcra"])] }

/-- A record whose taxonomy path is the non-empty list holding one empty
rank, so that the semicolon-join of the path is the empty string. -/
def exR : GbRecord := { id := "R", description := "D", taxonomy := [""], features := [exF2] }

/-- A record with two matching CDS features at distinct coordinates. -/
def exR3 : GbRecord :=
  { id := "NC1", description := "org", taxonomy := ["A", "B"], features := [exF2, exF3] }

/-! ## The claims -/

/-- C1: for every coding-sequence feature and criteria, classification is:
if any lowercased gene-name token occurs as a substring of the lowercase
space-joined `gene` qualifier values, the result is `GeneName` (token
`gene`); otherwise, if any lowercased keyword phrase occurs as a substring
of the lowercase space-joined `product`-then-`note` qualifier values, the
result is `ProductOrNote` (token `product_or_note`); otherwise the feature
is not a hit.  A gene-name match always takes precedence over a keyword
match for the same feature. -/
theorem classification_policy (gn kw : List String) (f : Feature) :
    (classify (gn.map strLower) (kw.map strLower) f = some MatchType.gene ↔
      ∃ g ∈ gn, ∃ s t, s ++ (strLower g).data ++ t = (geneText f).data) ∧
    (classify (gn.map strLower) (kw.map strLower) f = some MatchType.product_or_note ↔
      (¬ ∃ g ∈ gn, ∃ s t, s ++ (strLower g).data ++ t = (geneText f).data) ∧
      ∃ k ∈ kw, ∃ s t, s ++ (strLower k).data ++ t = (productNoteText f).data) ∧
    (classify (gn.map strLower) (kw.map strLower) f = none ↔
      (¬ ∃ g ∈ gn, ∃ s t, s ++ (strLower g).data ++ t = (geneText f).data) ∧
      ¬ ∃ k ∈ kw, ∃ s t, s ++ (strLower k).data ++ t = (productNoteText f).data) := by
  rw [← any_strIn_iff gn (geneText f), ← any_strIn_iff kw (productNoteText f)]
  cases hA : (gn.map strLower).any (fun g => strIn g (geneText f)) <;>
    cases hB : (kw.map strLower).any (fun k => strIn k (productNoteText f)) <;>
      simp [classify, hA, hB]

/-- C2 counterexample: two CDS features with identical coordinates (0, 10)
and different qualifiers, where the first-encountered one does not match
the criteria: the feature that is extracted is the second one, not the
first-encountered one, because the dedup set records matched coordinates
only.  This refutes the claim that only the first-encountered feature (in
feature order) is extracted. -/
theorem dedup_counterexample :
    coordsOf exF1 = coordsOf exF2 ∧ exF1.qualifiers ≠ exF2.qualifiers ∧
    geneHits ["mcra"] [] [exF1, exF2] [] = [(exF2, MatchType.gene)] ∧ exF2 ≠ exF1 :=
  ⟨rfl, by decide, by decide, by decide⟩

/-- C2 (amended): within one file at most one feature per (start, end)
pair is ever recorded — the recorded hits carry pairwise distinct
coordinate pairs — and the hit recorded for a coordinate pair is the
first-encountered feature (in feature order) whose classification is a
hit; an earlier non-matching feature at the same coordinates does not
suppress a later matching one. -/
theorem dedup_first_match (gn kw : List String) (fs : List Feature) (seen : List (Nat × Nat)) :
    geneHits gn kw fs seen
      = firstPerCoord (fs.filterMap (fun f => (classify gn kw f).map (fun t => (f, t)))) seen
    ∧ ((geneHits gn kw fs []).map (fun p => coordsOf p.1)).Nodup := by
  refine ⟨geneHits_eq_firstPerCoord gn kw fs seen, ?_⟩
  rw [geneHits_eq_firstPerCoord]
  exact (firstPerCoord_coords _ _).1

/-- C9: if the gene-name token list contains the empty string, every
feature is classified `GeneName` — including features with no `gene`
qualifier at all — so the hit-collection loop records every feature at a
not-yet-seen coordinate range as a `GeneName` hit. -/
theorem empty_gene_token_matches_all (gn kw : List String) (h : "" ∈ gn) :
    (∀ f : Feature, classify gn kw f = some MatchType.gene) ∧
    ∀ (fs : List Feature) (seen : List (Nat × Nat)),
      geneHits gn kw fs seen
        = firstPerCoord (fs.map (fun f => (f, MatchType.gene))) seen := by
  have hcl : ∀ f : Feature, classify gn kw f = some MatchType.gene := by
    intro f
    have hany : gn.any (fun g => strIn g (geneText f)) = true :=
      List.any_eq_true.2 ⟨"", h, (strIn_iff "" (geneText f)).2 ⟨[], (geneText f).data, rfl⟩⟩
    simp [classify, hany]
  refine ⟨hcl, ?_⟩
  intro fs seen
  rw [geneHits_eq_firstPerCoord]
  have harg : fs.filterMap (fun f => (classify gn kw f).map (fun t => (f, t)))
      = fs.map (fun f => (f, MatchType.gene)) := by
    induction fs with
    | nil => rfl
    | cons f rest ih => simp [List.filterMap_cons, hcl f, ih]
  rw [harg]

/-- C9 witness: with criteria `[""]`, a CDS feature with no `gene`
qualifier at all is classified `GeneName`. -/
theorem empty_gene_token_matches_all_witness :
    classify [""] [] { type := "CDS", start := 3, stop := 9, qualifiers := [] }
      = some MatchType.gene :=
  (empty_gene_token_matches_all [""] [] (by decide)).1 _

/-- C3: when every recorded hit's sequence derivation succeeds, the
extracted identifiers are, in order, the record id, the category token
and the 1-based position of the hit in recorded order; the positions are
exactly 1..N with no gaps or repeats, and the identifiers are pairwise
distinct within the file's output. -/
theorem identifiers_in_order (ext : GbRecord → Feature → Option (List Char))
    (gn kw : List String) (gb : GbRecord)
    (hall : ∀ p ∈ geneHits gn kw (cdsFeatures gb) [], (ext gb p.1).isSome = true) :
    ((extract_sequences ext gn kw (Except.ok gb)).map SeqRecord.id
      = (geneHits gn kw (cdsFeatures gb) []).enum.map
          (fun p => gb.id ++ "_" ++ matchTypeStr p.2.2 ++ "_" ++ Nat.repr (p.1 + 1)))
    ∧ ((geneHits gn kw (cdsFeatures gb) []).enum.map (fun p => p.1 + 1)
        = (List.range (geneHits gn kw (cdsFeatures gb) []).length).map (fun i => i + 1))
    ∧ ((extract_sequences ext gn kw (Except.ok gb)).map SeqRecord.id).Nodup := by
  have hids := buildRecordsFrom_ids (ext gb) gb (geneHits gn kw (cdsFeatures gb) []) 0
  have hfil : (List.enumFrom 0 (geneHits gn kw (cdsFeatures gb) [])).filter
      (fun p => (ext gb p.2.1).isSome) = List.enumFrom 0 (geneHits gn kw (cdsFeatures gb) []) :=
    List.filter_eq_self.mpr (fun p hp => hall p.2 (mem_enumFrom _ 0 p hp).2)
  refine ⟨?_, ?_, ?_⟩
  · show (buildRecordsFrom (ext gb) gb 0 (geneHits gn kw (cdsFeatures gb) [])).map SeqRecord.id = _
    rw [hids, hfil]
    rfl
  · have h1 : (geneHits gn kw (cdsFeatures gb) []).enum.map (fun p => p.1 + 1)
        = ((geneHits gn kw (cdsFeatures gb) []).enum.map Prod.fst).map (fun i => i + 1) := by
      rw [List.map_map]
      rfl
    rw [h1, List.enum_map_fst]
  · show ((buildRecordsFrom (ext gb) gb 0 (geneHits gn kw (cdsFeatures gb) [])).map
      SeqRecord.id).Nodup
    rw [hids]
    exact mkId_map_nodup gb.id _ ((enumFrom_fst_pairwise _ 0).filter _)

/-- C3 witness: for a file with two matching CDS hits whose derivations
both succeed, the identifiers are distinct and as recorded. -/
theorem identifiers_in_order_witness :
    ((extract_sequences (fun _ _ => some ['a']) ["mcra"] [] (Except.ok exR3)).map SeqRecord.id
      = ["NC1_gene_1", "NC1_gene_2"])
    ∧ ((extract_sequences (fun _ _ => some ['a']) ["mcra"] []
        (Except.ok exR3)).map SeqRecord.id).Nodup := by
  have h := identifiers_in_order (fun _ _ => some ['a']) ["mcra"] [] exR3 (by decide)
  exact ⟨by rw [h.1]; decide, h.2.2⟩

/-- C5: the per-file extraction never raises to its caller: a parse
failure yields the empty result for that file; a hit whose sequence
derivation fails is the only one skipped — the output has one record per
succeeding hit, and every succeeding hit's record (with its original
index) is in the output.  The embedding is a total function, so no other
failure can escape. -/
theorem extract_never_raises (ext : GbRecord → Feature → Option (List Char))
    (gn kw : List String) :
    (∀ e : String, extract_sequences ext gn kw (Except.error e) = []) ∧
    (∀ gb : GbRecord,
      (extract_sequences ext gn kw (Except.ok gb)).length
        = ((geneHits gn kw (cdsFeatures gb) []).filter (fun p => (ext gb p.1).isSome)).length) ∧
    (∀ (gb : GbRecord) (i : Nat)
        (hlt : i < (geneHits gn kw (cdsFeatures gb) []).length) (s : List Char),
      ext gb ((geneHits gn kw (cdsFeatures gb) []).get ⟨i, hlt⟩).1 = some s →
        mkRecord gb ((geneHits gn kw (cdsFeatures gb) []).get ⟨i, hlt⟩).2 i s
          ∈ extract_sequences ext gn kw (Except.ok gb)) := by
  refine ⟨fun e => rfl, fun gb => buildRecordsFrom_length (ext gb) gb _ 0, ?_⟩
  intro gb i hlt s hs
  have h := buildRecordsFrom_mem_of_some (ext gb) gb (geneHits gn kw (cdsFeatures gb) [])
    0 i hlt s hs
  simpa using h

/-- C5 witness: a parse failure produces the empty result, and for a file
with one succeeding hit the hit's record is in the output. -/
theorem extract_never_raises_witness :
    (extract_sequences (fun _ _ => some ['g']) ["mcra"] [] (Except.error "truncated") = []) ∧
    mkRecord exR3 MatchType.gene 0 ['g']
      ∈ extract_sequences (fun _ _ => some ['g']) ["mcra"] [] (Except.ok exR3) := by
  constructor
  · exact (extract_never_raises (fun _ _ => some ['g']) ["mcra"] []).1 "truncated"
  · have h := (extract_never_raises (fun _ _ => some ['g']) ["mcra"] []).2.2 exR3 0
      (by decide) ['g'] (by decide)
    exact h

/-- C10: with arbitrary derivation failures, the extracted identifiers
are exactly those of the surviving hits, each keeping the 1-based index
of its position in recorded order; the surviving indices are strictly
increasing (so they never repeat and never shift, though they may have
gaps at failed hits), and the identifiers never collide. -/
theorem surviving_hits_keep_indices (ext : GbRecord → Feature → Option (List Char))
    (gn kw : List String) (gb : GbRecord) :
    ((extract_sequences ext gn kw (Except.ok gb)).map SeqRecord.id
      = ((geneHits gn kw (cdsFeatures gb) []).enum.filter
            (fun p => (ext gb p.2.1).isSome)).map
          (fun p => gb.id ++ "_" ++ matchTypeStr p.2.2 ++ "_" ++ Nat.repr (p.1 + 1)))
    ∧ (((geneHits gn kw (cdsFeatures gb) []).enum.filter
            (fun p => (ext gb p.2.1).isSome)).map (fun p => p.1 + 1)).Pairwise (· < ·)
    ∧ ((extract_sequences ext gn kw (Except.ok gb)).map SeqRecord.id).Nodup := by
  have hids := buildRecordsFrom_ids (ext gb) gb (geneHits gn kw (cdsFeatures gb) []) 0
  have hpw := (enumFrom_fst_pairwise (geneHits gn kw (cdsFeatures gb) []) 0).filter
    (fun p => (ext gb p.2.1).isSome)
  refine ⟨?_, ?_, ?_⟩
  · show (buildRecordsFrom (ext gb) gb 0 (geneHits gn kw (cdsFeatures gb) [])).map
      SeqRecord.id = _
    rw [hids]
    rfl
  · exact List.pairwise_map.mpr (hpw.imp (fun hab => by omega))
  · show ((buildRecordsFrom (ext gb) gb 0 (geneHits gn kw (cdsFeatures gb) [])).map
      SeqRecord.id).Nodup
    rw [hids]
    exact mkId_map_nodup gb.id _ hpw

/-- C4: in the normalization pass, an identifier that is empty or the
parser placeholder `<unknown id>` becomes the literal `unknown_id` and is
otherwise kept; a description that is empty or `<unknown description>`
becomes the literal `unknown description` and is otherwise kept; the two
rules act independently (each reads only its own field), and every record
at write time has a non-empty identifier and description. -/
theorem normalization_at_write_time :
    (∀ s : SeqRecord,
      ((s.id = "" ∨ s.id = "<unknown id>") → (normalizeRecord s).id = "unknown_id") ∧
      (¬ (s.id = "" ∨ s.id = "<unknown id>") → (normalizeRecord s).id = s.id) ∧
      ((s.description = "" ∨ s.description = "<unknown description>") →
        (normalizeRecord s).description = "unknown description") ∧
      (¬ (s.description = "" ∨ s.description = "<unknown description>") →
        (normalizeRecord s).description = s.description)) ∧
    (∀ (ext : GbRecord → Feature → Option (List Char)) (gns kws : List String)
        (out : String) (files : List (Except String GbRecord)) (we : Option String),
      ∀ rec ∈ (mainRun ext gns kws out files we).records,
        rec.id ≠ "" ∧ rec.description ≠ "") := by
  constructor
  · intro s
    refine ⟨fun h => by simp [normalizeRecord, h], fun h => by simp [normalizeRecord, h],
      fun h => by simp [normalizeRecord, h], fun h => by simp [normalizeRecord, h]⟩
  · intro ext gns kws out files we rec hrec
    have hmem : rec ∈ ((files.map (extract_sequences ext (gns.map strLower)
        (kws.map strLower))).flatten).map normalizeRecord := by
      cases we <;> simpa [mainRun] using hrec
    obtain ⟨s, _, rfl⟩ := List.mem_map.1 hmem
    constructor
    · by_cases h : s.id = "" ∨ s.id = "<unknown id>"
      · simp [normalizeRecord, h]
      · have : (normalizeRecord s).id = s.id := by simp [normalizeRecord, h]
        rw [this]
        exact fun hc => h (Or.inl hc)
    · by_cases h : s.description = "" ∨ s.description = "<unknown description>"
      · simp [normalizeRecord, h]
      · have : (normalizeRecord s).description = s.description := by simp [normalizeRecord, h]
        rw [this]
        exact fun hc => h (Or.inl hc)

/-- C4 witness: a record with empty identifier and placeholder
description is rewritten to the two literals, and a run's records have
non-empty fields. -/
theorem normalization_at_write_time_witness :
    (normalizeRecord { id := "", description := "<unknown description>", seq := [] }).id
        = "unknown_id"
    ∧ (normalizeRecord { id := "", description := "<unknown description>", seq := [] }).description
        = "unknown description" := by
  have h := normalization_at_write_time.1 { id := "", description := "<unknown description>", seq := [] }
  exact ⟨h.1 (Or.inl rfl), h.2.2.1 (Or.inr rfl)⟩

/-- C6 counterexample: a record whose taxonomy path is `[""]` — non-empty,
but joining it with `'; '` gives the empty string.  The code produces the
fallback `unknown taxonomy`, while the claim (fallback only when the
taxonomy PATH is empty) demands the joined path, i.e. a description ending
in `', '`. -/
theorem description_counterexample :
    exR.taxonomy ≠ [] ∧
    ((extract_sequences (fun _ _ => some ['a']) ["mcra"] [] (Except.ok exR)).map
        SeqRecord.description = ["gene D, unknown taxonomy"]) ∧
    claimedDescription MatchType.gene exR = "gene D, " ∧
    ("gene D, unknown taxonomy" : String) ≠ "gene D, " := by
  refine ⟨by decide, by decide, by decide, by decide⟩

/-- C6 (amended): every extracted record's description is the category
label, a space, the source record's description, then `', '` followed by
the record's taxonomy path joined with `'; '` — with the literal
`unknown taxonomy` in place of the joined path whenever the JOINED STRING
is empty (which happens when the path is empty, and also when the path is
the single empty rank). -/
theorem description_format (ext : GbRecord → Feature → Option (List Char))
    (gn kw : List String) (gb : GbRecord) (rec : SeqRecord)
    (hmem : rec ∈ extract_sequences ext gn kw (Except.ok gb)) :
    ∃ t : MatchType, rec.description
      = matchTypeStr t ++ " " ++ gb.description ++ ", " ++
        (if String.intercalate "; " gb.taxonomy = "" then "unknown taxonomy"
          else String.intercalate "; " gb.taxonomy) := by
  obtain ⟨t, idx, s, rfl⟩ := buildRecordsFrom_mem_form (ext gb) gb
    (geneHits gn kw (cdsFeatures gb) []) 0 rec hmem
  exact ⟨t, by simp [mkRecord, taxonomyStr]⟩

/-- C6 witness: the one record extracted from a file with taxonomy
`["A", "B"]` carries the joined taxonomy in its description. -/
theorem description_format_witness :
    ∃ t : MatchType,
      ((extract_sequences (fun _ _ => some ['a']) ["mcra"] [] (Except.ok exR3)).get
          ⟨0, by decide⟩).description
        = matchTypeStr t ++ " " ++ exR3.description ++ ", " ++
          (if String.intercalate "; " exR3.taxonomy = "" then "unknown taxonomy"
            else String.intercalate "; " exR3.taxonomy) :=
  description_format (fun _ _ => some ['a']) ["mcra"] [] exR3 _ (List.get_mem _ _ _)

/-- C7 counterexample: the final write step is wrapped in
`try`/`except`, and the script then simply ends, so the process exit
status is `0` whether the write failed or succeeded — the exit status
does not reflect the success/failure of the write step, contrary to the
claim. -/
theorem write_exit_counterexample :
    (mainRun (fun _ _ => none) genes_of_interest product_and_note_keywords
        "/output/sequences.fasta" [] (some "Permission denied")).exitCode = 0
    ∧ (mainRun (fun _ _ => none) genes_of_interest product_and_note_keywords
        "/output/sequences.fasta" [] none).exitCode = 0 := by
  exact ⟨rfl, rfl⟩

/-- C7 (amended): on a serialization error in the final write step the
program logs the error and reports failure without raising and without
retrying (the write collaborator is consulted exactly once, and both
branches return normally), but the process exit status is `0` regardless
of the write outcome — it does not distinguish write success from
failure. -/
theorem write_failure_behavior (ext : GbRecord → Feature → Option (List Char))
    (gns kws : List String) (out : String) (files : List (Except String GbRecord))
    (e : String) :
    (mainRun ext gns kws out files (some e)).writeMessage = " Error writing FASTA: " ++ e
    ∧ (mainRun ext gns kws out files (some e)).output = none
    ∧ (mainRun ext gns kws out files none).writeMessage = " Sequences saved to " ++ out
    ∧ (mainRun ext gns kws out files (some e)).exitCode
        = (mainRun ext gns kws out files none).exitCode := by
  exact ⟨rfl, rfl, rfl, rfl⟩

/-- C8: a run over an input directory with zero matching files completes,
aggregates zero records, and the write step succeeds producing an output
file that exists and holds zero records (empty content). -/
theorem empty_directory_run (ext : GbRecord → Feature → Option (List Char))
    (gns kws : List String) (out : String) :
    (mainRun ext gns kws out [] none).records = []
    ∧ (mainRun ext gns kws out [] none).output = some ""
    ∧ (mainRun ext gns kws out [] none).exitCode = 0 := by
  refine ⟨rfl, ?_, rfl⟩
  simp [mainRun, fastaText, String.join]

end GeneScoop
